import Mathlib

/-
Shallow embedding of the passkey relying-party backend (src/backend/server.js).

The server keeps an in-memory db of three JS Maps keyed by username:
  users      : username -> { username, passkeys }
  regOptions : username -> last registration options (carries the challenge)
  authOptions: username -> last authentication options (carries the challenge)
JS Maps are modelled as association lists observed through mapGet (first
binding wins); Map.set replaces the first binding in place or appends,
Map.delete removes the key.  Each Express handler becomes a pure function
from the request body and the db to a response together with the new db.
The @simplewebauthn verification calls are external capabilities: the
handlers are parametric in the verifier, and spec-modelled concrete
verifiers are provided for the claims that depend on the verifier's
documented behaviour.
-/

namespace Passkeys

/-- Lookup in a JS Map modelled as an association list: the first binding of
the key, if any (JS Maps have unique keys, so this is the binding). -/
def mapGet {α : Type} : List (String × α) → String → Option α
  | [], _ => none
  | (k', v) :: rest, k => if k' = k then some v else mapGet rest k

/-- JS Map.set: replace the first binding of the key in place, or append a
new binding at the end. -/
def mapSet {α : Type} : List (String × α) → String → α → List (String × α)
  | [], k, v => [(k, v)]
  | (k', v') :: rest, k, v =>
    if k' = k then (k, v) :: rest else (k', v') :: mapSet rest k v

/-- JS Map.delete: remove the bindings of the key. -/
def mapDelete {α : Type} (m : List (String × α)) (k : String) : List (String × α) :=
  m.filter (fun p => p.1 != k)

/-- A stored passkey record, as built in the register/verify handler:
id, publicKey, counter, transports, deviceType, backedUp. -/
structure Passkey where
  id : String
  publicKey : List Nat
  counter : Nat
  transports : List String
  deviceType : String
  backedUp : Bool
deriving DecidableEq

/-- A user record: { username, passkeys: [] }. -/
structure User where
  username : String
  passkeys : List Passkey
deriving DecidableEq

/-- The part of the generated registration options the server later consumes
or that the claims mention: the challenge and the exclusion list. -/
structure RegOptions where
  challenge : String
  excludeCredentials : List (String × List String)
deriving DecidableEq

/-- The part of the generated authentication options the server later
consumes: the challenge and the allow list. -/
structure AuthOptions where
  challenge : String
  allowCredentials : List (String × List String)
deriving DecidableEq

/-- The in-memory db of server.js. -/
structure DB where
  users : List (String × User)
  regOptions : List (String × RegOptions)
  authOptions : List (String × AuthOptions)
deriving DecidableEq

/-- The db at process start: three empty Maps. -/
def emptyDB : DB := { users := [], regOptions := [], authOptions := [] }

/-- Default RP id (process.env.RPID || "localhost"). -/
def rpID : String := "localhost"

/-- Default accepted origins. -/
def ORIGINS : List String := ["http://localhost:3000", "http://localhost:5173"]

/-- The client-supplied credential body.  The server itself only reads the
id field; the rest models the data the external verifier inspects (the
challenge and origin echoed in clientDataJSON, the asserted counter, the
attested key material) and an abstract bit for the cryptographic signature
check. -/
structure ClientCredential where
  id : String
  challenge : String
  origin : String
  rpId : String
  sigValid : Bool
  newCounter : Nat
  regCounter : Nat
  publicKey : List Nat
  transports : List String
  deviceType : String
  backedUp : Bool
deriving DecidableEq

/-- The credential part of a registration verification result. -/
structure RegInfoCred where
  id : String
  publicKey : List Nat
  counter : Nat
  transports : List String
deriving DecidableEq

/-- registrationInfo of a registration verification result. -/
structure RegistrationInfo where
  credential : RegInfoCred
  credentialDeviceType : String
  credentialBackedUp : Bool
deriving DecidableEq

/-- Result of verifyRegistrationResponse. -/
structure RegVerification where
  verified : Bool
  registrationInfo : Option RegistrationInfo
deriving DecidableEq

/-- The stored credential data handed to verifyAuthenticationResponse. -/
structure StoredCredParam where
  id : String
  publicKey : List Nat
  counter : Nat
  transports : List String
deriving DecidableEq

/-- Result of verifyAuthenticationResponse; authenticationInfo carries the
new counter when present. -/
structure AuthVerification where
  verified : Bool
  authenticationInfo : Option Nat
deriving DecidableEq

/-- The external registration verification capability:
(response, expectedChallenge, expectedOrigin list, expectedRPID); a thrown
error is an Except.error carrying the message. -/
def RegVerifier : Type :=
  ClientCredential → String → List String → String → Except String RegVerification

/-- The external authentication verification capability: as RegVerifier,
plus the stored credential. -/
def AuthVerifier : Type :=
  ClientCredential → String → List String → String → StoredCredParam →
    Except String AuthVerification

/-- An HTTP response: 200 with a payload, or 400 with an error message. -/
inductive Resp (α : Type) where
  | ok (value : α)
  | err (msg : String)
deriving DecidableEq

/-- getOrCreateUser of server.js: return the stored user, or insert and
return a fresh user with no passkeys. -/
def getOrCreateUser (db : DB) (username : String) : User × DB :=
  match mapGet db.users username with
  | some user => (user, db)
  | none =>
    let user : User := { username := username, passkeys := [] }
    (user, { db with users := mapSet db.users username user })

/-- POST /register/options.  The challenge argument stands for the fresh
random challenge produced by generateRegistrationOptions. -/
def registerOptions (db : DB) (username? : Option String) (challenge : String) :
    Resp RegOptions × DB :=
  match username? with
  | none => (.err "Falta username", db)
  | some username =>
    if username = "" then (.err "Falta username", db)
    else
      let p := getOrCreateUser db username
      let opts : RegOptions :=
        { challenge := challenge
          excludeCredentials := p.1.passkeys.map (fun pk => (pk.id, pk.transports)) }
      (.ok opts, { p.2 with regOptions := mapSet p.2.regOptions username opts })

/-- Build the stored passkey from a verification result, as the
register/verify handler does. -/
def mkPasskey (info : RegistrationInfo) : Passkey :=
  { id := info.credential.id
    publicKey := info.credential.publicKey
    counter := info.credential.counter
    transports := info.credential.transports
    deviceType := info.credentialDeviceType
    backedUp := info.credentialBackedUp }

/-- POST /register/verify.  The try block verifies and on verified success
pushes the new passkey onto the user's list; the finally block deletes the
pending registration options whether the try returned or threw. -/
def registerVerify (verifier : RegVerifier) (db : DB)
    (username? : Option String) (credential? : Option ClientCredential) :
    Resp Bool × DB :=
  match username?, credential? with
  | some username, some credential =>
    if username = "" then (.err "Faltan datos", db)
    else
      match mapGet db.users username with
      | none => (.err "Usuario no existe", db)
      | some user =>
        match mapGet db.regOptions username with
        | none => (.err "No hay options de registro activas", db)
        | some opts =>
          let tryResult : Resp Bool × DB :=
            match verifier credential opts.challenge ORIGINS rpID with
            | .error msg => (.err msg, db)
            | .ok verification =>
              if verification.verified then
                match verification.registrationInfo with
                | some info =>
                  let user' :=
                    { user with passkeys := user.passkeys ++ [mkPasskey info] }
                  (.ok verification.verified,
                    { db with users := mapSet db.users username user' })
                | none => (.ok verification.verified, db)
              else (.ok verification.verified, db)
          (tryResult.1,
            { tryResult.2 with regOptions := mapDelete tryResult.2.regOptions username })
  | _, _ => (.err "Faltan datos", db)

/-- POST /login/options.  The challenge argument stands for the fresh random
challenge produced by generateAuthenticationOptions. -/
def loginOptions (db : DB) (username? : Option String) (challenge : String) :
    Resp AuthOptions × DB :=
  match username? with
  | none => (.err "Falta username", db)
  | some username =>
    if username = "" then (.err "Falta username", db)
    else
      match mapGet db.users username with
      | none => (.err "Usuario no existe", db)
      | some user =>
        if user.passkeys = [] then (.err "Usuario sin passkeys", db)
        else
          let opts : AuthOptions :=
            { challenge := challenge
              allowCredentials := user.passkeys.map (fun pk => (pk.id, pk.transports)) }
          (.ok opts, { db with authOptions := mapSet db.authOptions username opts })

/-- passkey.counter = newCounter on the passkey found by user.passkeys.find:
update the counter of the first passkey whose id matches. -/
def setCounterFirst : List Passkey → String → Nat → List Passkey
  | [], _, _ => []
  | pk :: rest, cid, n =>
    if pk.id = cid then { pk with counter := n } :: rest
    else pk :: setCounterFirst rest cid n

/-- POST /login/verify.  Inside the try block: find the passkey by the
credential id (CredentialNotFound if absent), verify, and on verified
success overwrite that passkey's counter; the finally block deletes the
pending authentication options on every path through the try. -/
def loginVerify (verifier : AuthVerifier) (db : DB)
    (username? : Option String) (credential? : Option ClientCredential) :
    Resp Bool × DB :=
  match username?, credential? with
  | some username, some credential =>
    if username = "" then (.err "Faltan datos", db)
    else
      match mapGet db.users username with
      | none => (.err "Usuario no existe", db)
      | some user =>
        match mapGet db.authOptions username with
        | none => (.err "No hay options de login activas", db)
        | some opts =>
          let tryResult : Resp Bool × DB :=
            match user.passkeys.find? (fun pk => pk.id == credential.id) with
            | none => (.err "Credencial no encontrada", db)
            | some passkey =>
              match verifier credential opts.challenge ORIGINS rpID
                  { id := passkey.id, publicKey := passkey.publicKey,
                    counter := passkey.counter, transports := passkey.transports } with
              | .error msg => (.err msg, db)
              | .ok verification =>
                if verification.verified then
                  match verification.authenticationInfo with
                  | some newCounter =>
                    let user' :=
                      { user with
                        passkeys := setCounterFirst user.passkeys credential.id newCounter }
                    (.ok verification.verified,
                      { db with users := mapSet db.users username user' })
                  | none => (.ok verification.verified, db)
                else (.ok verification.verified, db)
          (tryResult.1,
            { tryResult.2 with authOptions := mapDelete tryResult.2.authOptions username })
  | _, _ => (.err "Faltan datos", db)

/-- Modelled from the spec: the delegated registration verification
capability (verifyRegistrationResponse of @simplewebauthn/server, which is
not part of src/).  Per spec section 4.3 step 2 and section 9 it validates
the signed response against the expected challenge, the accepted origins
(exact match), and the RP id, and on success extracts the credential's
public key and initial signature counter; any failed check surfaces as a
VerificationFailure error. -/
def specRegVerifier : RegVerifier := fun resp expectedChallenge expectedOrigins expectedRPID =>
  if resp.challenge = expectedChallenge ∧ resp.origin ∈ expectedOrigins ∧
      resp.rpId = expectedRPID ∧ resp.sigValid = true then
    .ok { verified := true
          registrationInfo := some
            { credential :=
                { id := resp.id, publicKey := resp.publicKey,
                  counter := resp.regCounter, transports := resp.transports }
              credentialDeviceType := resp.deviceType
              credentialBackedUp := resp.backedUp } }
  else .error "VerificationFailure"

/-- Modelled from the spec: the delegated authentication verification
capability (verifyAuthenticationResponse of @simplewebauthn/server, not
part of src/).  Per spec sections 4.4 and 8 it validates challenge, origin,
RP id and signature, and rejects an asserted counter less than or equal to
the stored counter (monotonicity law); on success it reports the new
counter. -/
def specAuthVerifier : AuthVerifier :=
  fun resp expectedChallenge expectedOrigins expectedRPID cred =>
  if resp.challenge = expectedChallenge ∧ resp.origin ∈ expectedOrigins ∧
      resp.rpId = expectedRPID ∧ resp.sigValid = true then
    if cred.counter < resp.newCounter then
      .ok { verified := true, authenticationInfo := some resp.newCounter }
    else .error "VerificationFailure: counter"
  else .error "VerificationFailure"

theorem mapGet_set {α : Type} (m : List (String × α)) (k k' : String) (v : α) :
    mapGet (mapSet m k v) k' = if k = k' then some v else mapGet m k' := by
  induction m with
  | nil => simp [mapSet, mapGet, eq_comm]
  | cons p rest ih =>
    obtain ⟨k0, v0⟩ := p
    by_cases h0 : k0 = k
    · subst h0
      by_cases h1 : k0 = k' <;> simp [mapSet, mapGet, h1]
    · by_cases h1 : k0 = k'
      · subst h1
        have : ¬ k = k0 := fun h => h0 h.symm
        simp [mapSet, mapGet, h0, this]
      · simp [mapSet, mapGet, h0, h1, ih]

theorem mapGet_delete {α : Type} (m : List (String × α)) (k k' : String) :
    mapGet (mapDelete m k) k' = if k = k' then none else mapGet m k' := by
  induction m with
  | nil => simp [mapDelete, mapGet]
  | cons p rest ih =>
    obtain ⟨k0, v0⟩ := p
    simp only [mapDelete] at ih ⊢
    rw [List.filter_cons]
    by_cases h0 : k0 = k
    · subst h0
      rw [if_neg (by simp)]
      rw [ih]
      by_cases h1 : k0 = k'
      · simp [h1]
      · simp [mapGet, h1]
    · rw [if_pos (by simp [h0])]
      by_cases h1 : k0 = k'
      · subst h1
        have hkk' : ¬ k = k0 := fun h => h0 h.symm
        simp [mapGet, hkk']
      · simp only [mapGet, if_neg h1]
        exact ih

/-- Every terminal db a register/verify call can produce: unchanged on the
early returns, otherwise the pending registration options for the username
are deleted and the users map is either untouched or updated at that
username. -/
theorem registerVerify_shape (ver : RegVerifier) (db : DB)
    (u? : Option String) (c? : Option ClientCredential) :
    (registerVerify ver db u? c?).2 = db ∨
    ∃ u, u? = some u ∧
      ((registerVerify ver db u? c?).2 =
          { db with regOptions := mapDelete db.regOptions u } ∨
        ∃ user', (registerVerify ver db u? c?).2 =
          { db with users := mapSet db.users u user',
                    regOptions := mapDelete db.regOptions u }) := by
  cases u? with
  | none => left; simp [registerVerify]
  | some u =>
    cases c? with
    | none => left; simp [registerVerify]
    | some c =>
      by_cases hu : u = ""
      · left; simp [registerVerify, hu]
      rcases hget : mapGet db.users u with _ | user
      · left; simp [registerVerify, hu, hget]
      rcases hopt : mapGet db.regOptions u with _ | opts
      · left; simp [registerVerify, hu, hget, hopt]
      right
      refine ⟨u, rfl, ?_⟩
      rcases hv : ver c opts.challenge ORIGINS rpID with msg | vres
      · left; simp [registerVerify, hu, hget, hopt, hv]
      rcases hvf : vres.verified with _ | _
      · left; simp [registerVerify, hu, hget, hopt, hv, hvf]
      rcases hinfo : vres.registrationInfo with _ | info
      · left; simp [registerVerify, hu, hget, hopt, hv, hvf, hinfo]
      · right
        exact ⟨{ user with passkeys := user.passkeys ++ [mkPasskey info] },
          by simp [registerVerify, hu, hget, hopt, hv, hvf, hinfo]⟩

/-- Every terminal db a login/verify call can produce. -/
theorem loginVerify_shape (ver : AuthVerifier) (db : DB)
    (u? : Option String) (c? : Option ClientCredential) :
    (loginVerify ver db u? c?).2 = db ∨
    ∃ u, u? = some u ∧
      ((loginVerify ver db u? c?).2 =
          { db with authOptions := mapDelete db.authOptions u } ∨
        ∃ user', (loginVerify ver db u? c?).2 =
          { db with users := mapSet db.users u user',
                    authOptions := mapDelete db.authOptions u }) := by
  cases u? with
  | none => left; simp [loginVerify]
  | some u =>
    cases c? with
    | none => left; simp [loginVerify]
    | some c =>
      by_cases hu : u = ""
      · left; simp [loginVerify, hu]
      rcases hget : mapGet db.users u with _ | user
      · left; simp [loginVerify, hu, hget]
      rcases hopt : mapGet db.authOptions u with _ | opts
      · left; simp [loginVerify, hu, hget, hopt]
      right
      refine ⟨u, rfl, ?_⟩
      rcases hfind : user.passkeys.find? (fun pk => pk.id == c.id) with _ | passkey
      · left; simp [loginVerify, hu, hget, hopt, hfind]
      rcases hv : ver c opts.challenge ORIGINS rpID
          { id := passkey.id, publicKey := passkey.publicKey,
            counter := passkey.counter, transports := passkey.transports } with msg | vres
      · left; simp [loginVerify, hu, hget, hopt, hfind, hv]
      rcases hvf : vres.verified with _ | _
      · left; simp [loginVerify, hu, hget, hopt, hfind, hv, hvf]
      rcases hinfo : vres.authenticationInfo with _ | n
      · left; simp [loginVerify, hu, hget, hopt, hfind, hv, hvf, hinfo]
      · right
        exact ⟨{ user with passkeys := setCounterFirst user.passkeys c.id n },
          by simp [loginVerify, hu, hget, hopt, hfind, hv, hvf, hinfo]⟩

/-- Every terminal db a register/options call can produce: unchanged on the
early returns, otherwise the registration options for the username are
overwritten, with the user created first when absent. -/
theorem registerOptions_shape (db : DB) (u? : Option String) (ch : String) :
    (registerOptions db u? ch).2 = db ∨
    ∃ u opts, u? = some u ∧ u ≠ "" ∧
      ((∃ user, mapGet db.users u = some user ∧
          (registerOptions db u? ch).2 =
            { db with regOptions := mapSet db.regOptions u opts }) ∨
        (mapGet db.users u = none ∧
          (registerOptions db u? ch).2 =
            { db with
                users := mapSet db.users u { username := u, passkeys := [] },
                regOptions := mapSet db.regOptions u opts })) := by
  cases u? with
  | none => left; simp [registerOptions]
  | some u =>
    by_cases hu : u = ""
    · left; simp [registerOptions, hu]
    rcases hget : mapGet db.users u with _ | user
    · right
      refine ⟨u, { challenge := ch, excludeCredentials := [] }, rfl, hu, Or.inr ⟨hget, ?_⟩⟩
      simp [registerOptions, hu, getOrCreateUser, hget]
    · right
      refine ⟨u,
        { challenge := ch,
          excludeCredentials := user.passkeys.map (fun pk => (pk.id, pk.transports)) },
        rfl, hu, Or.inl ⟨user, hget, ?_⟩⟩
      simp [registerOptions, hu, getOrCreateUser, hget]

/-- Every terminal db a login/options call can produce. -/
theorem loginOptions_shape (db : DB) (u? : Option String) (ch : String) :
    (loginOptions db u? ch).2 = db ∨
    ∃ u opts user, u? = some u ∧ u ≠ "" ∧ mapGet db.users u = some user ∧
      user.passkeys ≠ [] ∧
      (loginOptions db u? ch).2 =
        { db with authOptions := mapSet db.authOptions u opts } := by
  cases u? with
  | none => left; simp [loginOptions]
  | some u =>
    by_cases hu : u = ""
    · left; simp [loginOptions, hu]
    rcases hget : mapGet db.users u with _ | user
    · left; simp [loginOptions, hu, hget]
    by_cases hpk : user.passkeys = []
    · left; simp [loginOptions, hu, hget, hpk]
    · right
      refine ⟨u,
        { challenge := ch,
          allowCredentials := user.passkeys.map (fun pk => (pk.id, pk.transports)) },
        user, rfl, hu, hget, hpk, ?_⟩
      simp [loginOptions, hu, hget, hpk]

/-- One handler invocation, as a step relation on the db. -/
inductive Step : DB → DB → Prop where
  | regOpts (db : DB) (u : Option String) (ch : String) :
      Step db (registerOptions db u ch).2
  | regVer (db : DB) (v : RegVerifier) (u : Option String) (c : Option ClientCredential) :
      Step db (registerVerify v db u c).2
  | loginOpts (db : DB) (u : Option String) (ch : String) :
      Step db (loginOptions db u ch).2
  | loginVer (db : DB) (v : AuthVerifier) (u : Option String) (c : Option ClientCredential) :
      Step db (loginVerify v db u c).2

/-- Db states reachable from process start through handler invocations. -/
inductive Reachable : DB → Prop where
  | init : Reachable emptyDB
  | step {db db' : DB} : Reachable db → Step db db' → Reachable db'

/-- Every cached challenge is keyed by a nonempty username whose user
record exists: both options Maps are only written after the username
passed the falsy check and the user was fetched or created. -/
def ChallengeInv (db : DB) : Prop :=
  (∀ u, mapGet db.regOptions u ≠ none → u ≠ "" ∧ mapGet db.users u ≠ none) ∧
  (∀ u, mapGet db.authOptions u ≠ none → u ≠ "" ∧ mapGet db.users u ≠ none)

theorem challengeInv_users_set (db : DB) (u : String) (user' : User)
    (h : ChallengeInv db) :
    ChallengeInv { db with users := mapSet db.users u user' } := by
  obtain ⟨hr, ha⟩ := h
  constructor
  · intro u' hu'
    refine ⟨(hr u' hu').1, ?_⟩
    have hx := (hr u' hu').2
    rw [mapGet_set]
    by_cases he : u = u' <;> simp [he, hx]
  · intro u' hu'
    refine ⟨(ha u' hu').1, ?_⟩
    have hx := (ha u' hu').2
    rw [mapGet_set]
    by_cases he : u = u' <;> simp [he, hx]

theorem challengeInv_delete_reg (db : DB) (u : String) (h : ChallengeInv db) :
    ChallengeInv { db with regOptions := mapDelete db.regOptions u } := by
  obtain ⟨hr, ha⟩ := h
  refine ⟨?_, ha⟩
  intro u' hu'
  rw [mapGet_delete] at hu'
  by_cases he : u = u'
  · simp [he] at hu'
  · exact hr u' (by simpa [he] using hu')

theorem challengeInv_delete_auth (db : DB) (u : String) (h : ChallengeInv db) :
    ChallengeInv { db with authOptions := mapDelete db.authOptions u } := by
  obtain ⟨hr, ha⟩ := h
  refine ⟨hr, ?_⟩
  intro u' hu'
  rw [mapGet_delete] at hu'
  by_cases he : u = u'
  · simp [he] at hu'
  · exact ha u' (by simpa [he] using hu')

theorem challengeInv_set_reg (db : DB) (u : String) (opts : RegOptions)
    (hu : u ≠ "") (huser : mapGet db.users u ≠ none) (h : ChallengeInv db) :
    ChallengeInv { db with regOptions := mapSet db.regOptions u opts } := by
  obtain ⟨hr, ha⟩ := h
  refine ⟨?_, ha⟩
  intro u' hu'
  rw [mapGet_set] at hu'
  by_cases he : u = u'
  · subst he; exact ⟨hu, huser⟩
  · exact hr u' (by simpa [he] using hu')

theorem challengeInv_set_auth (db : DB) (u : String) (opts : AuthOptions)
    (hu : u ≠ "") (huser : mapGet db.users u ≠ none) (h : ChallengeInv db) :
    ChallengeInv { db with authOptions := mapSet db.authOptions u opts } := by
  obtain ⟨hr, ha⟩ := h
  refine ⟨hr, ?_⟩
  intro u' hu'
  rw [mapGet_set] at hu'
  by_cases he : u = u'
  · subst he; exact ⟨hu, huser⟩
  · exact ha u' (by simpa [he] using hu')

theorem challengeInv_step {db db' : DB} (h : ChallengeInv db) (s : Step db db') :
    ChallengeInv db' := by
  cases s with
  | regOpts u? ch =>
    rcases registerOptions_shape db u? ch with heq | ⟨u, opts, _, hu, hcase⟩
    · rw [heq]; exact h
    rcases hcase with ⟨user, hget, heq⟩ | ⟨hget, heq⟩
    · rw [heq]
      exact challengeInv_set_reg db u opts hu (by simp [hget]) h
    · rw [heq]
      have h1 := challengeInv_users_set db u { username := u, passkeys := [] } h
      have h2 := challengeInv_set_reg _ u opts hu (by rw [mapGet_set]; simp) h1
      exact h2
  | regVer v u? c? =>
    rcases registerVerify_shape v db u? c? with heq | ⟨u, _, hcase⟩
    · rw [heq]; exact h
    rcases hcase with heq | ⟨user', heq⟩
    · rw [heq]; exact challengeInv_delete_reg db u h
    · rw [heq]
      have h1 := challengeInv_users_set db u user' h
      have h2 := challengeInv_delete_reg _ u h1
      exact h2
  | loginOpts u? ch =>
    rcases loginOptions_shape db u? ch with heq | ⟨u, opts, user, _, hu, hget, _, heq⟩
    · rw [heq]; exact h
    · rw [heq]
      exact challengeInv_set_auth db u opts hu (by simp [hget]) h
  | loginVer v u? c? =>
    rcases loginVerify_shape v db u? c? with heq | ⟨u, _, hcase⟩
    · rw [heq]; exact h
    rcases hcase with heq | ⟨user', heq⟩
    · rw [heq]; exact challengeInv_delete_auth db u h
    · rw [heq]
      have h1 := challengeInv_users_set db u user' h
      have h2 := challengeInv_delete_auth _ u h1
      exact h2

theorem challengeInv_emptyDB : ChallengeInv emptyDB := by
  constructor <;> intro u hu <;> simp [emptyDB, mapGet] at hu

theorem challengeInv_reachable {db : DB} (h : Reachable db) : ChallengeInv db := by
  induction h with
  | init => exact challengeInv_emptyDB
  | step _ s ih => exact challengeInv_step ih s

/-- Full evaluation of register/verify once the request fields, the user
and the pending options are all present. -/
theorem registerVerify_run (ver : RegVerifier) (db : DB) (u : String)
    (c : ClientCredential) (user : User) (opts : RegOptions)
    (hu : u ≠ "") (hget : mapGet db.users u = some user)
    (hopt : mapGet db.regOptions u = some opts) :
    registerVerify ver db (some u) (some c) =
      match ver c opts.challenge ORIGINS rpID with
      | .error msg =>
        (.err msg, { db with regOptions := mapDelete db.regOptions u })
      | .ok vres =>
        if vres.verified then
          match vres.registrationInfo with
          | some info =>
            (.ok true,
              { db with
                  users := mapSet db.users u
                    { user with passkeys := user.passkeys ++ [mkPasskey info] },
                  regOptions := mapDelete db.regOptions u })
          | none => (.ok true, { db with regOptions := mapDelete db.regOptions u })
        else (.ok false, { db with regOptions := mapDelete db.regOptions u }) := by
  rcases hv : ver c opts.challenge ORIGINS rpID with msg | vres
  · simp [registerVerify, hu, hget, hopt, hv]
  rcases hvf : vres.verified with _ | _
  · simp [registerVerify, hu, hget, hopt, hv, hvf]
  rcases hinfo : vres.registrationInfo with _ | info <;>
    simp [registerVerify, hu, hget, hopt, hv, hvf, hinfo]

/-- Full evaluation of login/verify once the request fields, the user and
the pending options are all present. -/
theorem loginVerify_run (ver : AuthVerifier) (db : DB) (u : String)
    (c : ClientCredential) (user : User) (opts : AuthOptions)
    (hu : u ≠ "") (hget : mapGet db.users u = some user)
    (hopt : mapGet db.authOptions u = some opts) :
    loginVerify ver db (some u) (some c) =
      match user.passkeys.find? (fun pk => pk.id == c.id) with
      | none =>
        (.err "Credencial no encontrada",
          { db with authOptions := mapDelete db.authOptions u })
      | some passkey =>
        match ver c opts.challenge ORIGINS rpID
            { id := passkey.id, publicKey := passkey.publicKey,
              counter := passkey.counter, transports := passkey.transports } with
        | .error msg =>
          (.err msg, { db with authOptions := mapDelete db.authOptions u })
        | .ok vres =>
          if vres.verified then
            match vres.authenticationInfo with
            | some n =>
              (.ok true,
                { db with
                    users := mapSet db.users u
                      { user with passkeys := setCounterFirst user.passkeys c.id n },
                    authOptions := mapDelete db.authOptions u })
            | none =>
              (.ok true, { db with authOptions := mapDelete db.authOptions u })
          else (.ok false, { db with authOptions := mapDelete db.authOptions u }) := by
  rcases hfind : user.passkeys.find? (fun pk => pk.id == c.id) with _ | passkey
  · simp [loginVerify, hu, hget, hopt, hfind]
  rcases hv : ver c opts.challenge ORIGINS rpID
      { id := passkey.id, publicKey := passkey.publicKey,
        counter := passkey.counter, transports := passkey.transports } with msg | vres
  · simp [loginVerify, hu, hget, hopt, hfind, hv]
  rcases hvf : vres.verified with _ | _
  · simp [loginVerify, hu, hget, hopt, hfind, hv, hvf]
  rcases hinfo : vres.authenticationInfo with _ | n <;>
    simp [loginVerify, hu, hget, hopt, hfind, hv, hvf, hinfo]

/-- register/verify with fields and user present but no pending options is
the NoPendingChallenge failure and leaves the db untouched. -/
theorem registerVerify_no_pending (ver : RegVerifier) (db : DB) (u : String)
    (c : ClientCredential) (user : User) (hu : u ≠ "")
    (hget : mapGet db.users u = some user) (hopt : mapGet db.regOptions u = none) :
    registerVerify ver db (some u) (some c) =
      (.err "No hay options de registro activas", db) := by
  simp [registerVerify, hu, hget, hopt]

/-- login/verify with fields and user present but no pending options is the
NoPendingChallenge failure and leaves the db untouched. -/
theorem loginVerify_no_pending (ver : AuthVerifier) (db : DB) (u : String)
    (c : ClientCredential) (user : User) (hu : u ≠ "")
    (hget : mapGet db.users u = some user) (hopt : mapGet db.authOptions u = none) :
    loginVerify ver db (some u) (some c) =
      (.err "No hay options de login activas", db) := by
  simp [loginVerify, hu, hget, hopt]

/-- On a db satisfying the challenge invariant, register/verify with both
fields present always leaves no pending registration challenge for the
username. -/
theorem registerVerify_clears (ver : RegVerifier) (db : DB) (u : String)
    (c : ClientCredential) (hinv : ChallengeInv db) :
    mapGet (registerVerify ver db (some u) (some c)).2.regOptions u = none := by
  by_cases hu : u = ""
  · subst hu
    have hdb : (registerVerify ver db (some "") (some c)).2 = db := by
      simp [registerVerify]
    rw [hdb]
    by_contra hn
    exact (hinv.1 "" hn).1 rfl
  rcases hget : mapGet db.users u with _ | user
  · have hdb : (registerVerify ver db (some u) (some c)).2 = db := by
      simp [registerVerify, hu, hget]
    rw [hdb]
    by_contra hn
    exact (hinv.1 u hn).2 hget
  rcases hopt : mapGet db.regOptions u with _ | opts
  · have hdb : (registerVerify ver db (some u) (some c)).2 = db := by
      simp [registerVerify, hu, hget, hopt]
    rw [hdb, hopt]
  · rw [registerVerify_run ver db u c user opts hu hget hopt]
    rcases hv : ver c opts.challenge ORIGINS rpID with msg | vres
    · simp [hv, mapGet_delete]
    rcases hvf : vres.verified with _ | _
    · simp [hv, hvf, mapGet_delete]
    rcases hinfo : vres.registrationInfo with _ | info <;>
      simp [hv, hvf, hinfo, mapGet_delete]

/-- On a db satisfying the challenge invariant, login/verify with both
fields present always leaves no pending authentication challenge for the
username. -/
theorem loginVerify_clears (ver : AuthVerifier) (db : DB) (u : String)
    (c : ClientCredential) (hinv : ChallengeInv db) :
    mapGet (loginVerify ver db (some u) (some c)).2.authOptions u = none := by
  by_cases hu : u = ""
  · subst hu
    have hdb : (loginVerify ver db (some "") (some c)).2 = db := by
      simp [loginVerify]
    rw [hdb]
    by_contra hn
    exact (hinv.2 "" hn).1 rfl
  rcases hget : mapGet db.users u with _ | user
  · have hdb : (loginVerify ver db (some u) (some c)).2 = db := by
      simp [loginVerify, hu, hget]
    rw [hdb]
    by_contra hn
    exact (hinv.2 u hn).2 hget
  rcases hopt : mapGet db.authOptions u with _ | opts
  · have hdb : (loginVerify ver db (some u) (some c)).2 = db := by
      simp [loginVerify, hu, hget, hopt]
    rw [hdb, hopt]
  · rw [loginVerify_run ver db u c user opts hu hget hopt]
    rcases hfind : user.passkeys.find? (fun pk => pk.id == c.id) with _ | passkey
    · simp [hfind, mapGet_delete]
    rcases hv : ver c opts.challenge ORIGINS rpID
        { id := passkey.id, publicKey := passkey.publicKey,
          counter := passkey.counter, transports := passkey.transports } with msg | vres
    · simp [hfind, hv, mapGet_delete]
    rcases hvf : vres.verified with _ | _
    · simp [hfind, hv, hvf, mapGet_delete]
    rcases hinfo : vres.authenticationInfo with _ | n <;>
      simp [hfind, hv, hvf, hinfo, mapGet_delete]

/-- register/verify never removes a user record. -/
theorem registerVerify_users_preserved (ver : RegVerifier) (db : DB)
    (u? : Option String) (c? : Option ClientCredential) (u : String)
    (h : mapGet db.users u ≠ none) :
    mapGet (registerVerify ver db u? c?).2.users u ≠ none := by
  rcases registerVerify_shape ver db u? c? with heq | ⟨u0, _, hcase⟩
  · rw [heq]; exact h
  rcases hcase with heq | ⟨user', heq⟩
  · rw [heq]; exact h
  · rw [heq]
    rw [mapGet_set]
    by_cases he : u0 = u <;> simp [he, h]

/-- login/verify never removes a user record. -/
theorem loginVerify_users_preserved (ver : AuthVerifier) (db : DB)
    (u? : Option String) (c? : Option ClientCredential) (u : String)
    (h : mapGet db.users u ≠ none) :
    mapGet (loginVerify ver db u? c?).2.users u ≠ none := by
  rcases loginVerify_shape ver db u? c? with heq | ⟨u0, _, hcase⟩
  · rw [heq]; exact h
  rcases hcase with heq | ⟨user', heq⟩
  · rw [heq]; exact h
  · rw [heq]
    rw [mapGet_set]
    by_cases he : u0 = u <;> simp [he, h]

/-- Full evaluation of register/options for an existing user. -/
theorem registerOptions_eq_existing (db : DB) (u : String) (ch : String)
    (user : User) (hu : u ≠ "") (hget : mapGet db.users u = some user) :
    registerOptions db (some u) ch =
      (.ok { challenge := ch,
             excludeCredentials := user.passkeys.map (fun pk => (pk.id, pk.transports)) },
        { db with
            regOptions := mapSet db.regOptions u
              { challenge := ch,
                excludeCredentials :=
                  user.passkeys.map (fun pk => (pk.id, pk.transports)) } }) := by
  simp [registerOptions, getOrCreateUser, hu, hget]

/-- Full evaluation of register/options for a new user. -/
theorem registerOptions_eq_new (db : DB) (u : String) (ch : String)
    (hu : u ≠ "") (hget : mapGet db.users u = none) :
    registerOptions db (some u) ch =
      (.ok { challenge := ch, excludeCredentials := [] },
        { db with
            users := mapSet db.users u { username := u, passkeys := [] },
            regOptions := mapSet db.regOptions u
              { challenge := ch, excludeCredentials := [] } }) := by
  simp [registerOptions, getOrCreateUser, hu, hget]

/-- Full evaluation of login/options for a user with credentials. -/
theorem loginOptions_eq (db : DB) (u : String) (ch : String) (user : User)
    (hu : u ≠ "") (hget : mapGet db.users u = some user)
    (hpk : user.passkeys ≠ []) :
    loginOptions db (some u) ch =
      (.ok { challenge := ch,
             allowCredentials := user.passkeys.map (fun pk => (pk.id, pk.transports)) },
        { db with
            authOptions := mapSet db.authOptions u
              { challenge := ch,
                allowCredentials :=
                  user.passkeys.map (fun pk => (pk.id, pk.transports)) } }) := by
  simp [loginOptions, hu, hget, hpk]

/-- A successful find? splits the list at the first match. -/
theorem find?_decomp {α : Type} {p : α → Bool} {l : List α} {a : α}
    (h : l.find? p = some a) :
    ∃ pre post, l = pre ++ a :: post ∧ ∀ x ∈ pre, p x = false := by
  induction l with
  | nil => simp at h
  | cons b rest ih =>
    by_cases hb : p b
    · rw [List.find?_cons_of_pos _ hb] at h
      cases h
      exact ⟨[], rest, rfl, by simp⟩
    · rw [List.find?_cons_of_neg _ (by simpa using hb)] at h
      obtain ⟨pre, post, hl, hpre⟩ := ih h
      refine ⟨b :: pre, post, by rw [hl]; rfl, ?_⟩
      intro x hx
      rcases List.mem_cons.mp hx with hx | hx
      · subst hx; simpa using hb
      · exact hpre x hx

/-- setCounterFirst rewrites exactly the head of the first match. -/
theorem setCounterFirst_decomp (pre post : List Passkey) (a : Passkey)
    (cid : String) (n : Nat) (ha : a.id = cid)
    (hpre : ∀ x ∈ pre, x.id ≠ cid) :
    setCounterFirst (pre ++ a :: post) cid n =
      pre ++ { a with counter := n } :: post := by
  induction pre with
  | nil => simp [setCounterFirst, ha]
  | cons b rest ih =>
    have hb : b.id ≠ cid := hpre b (by simp)
    simp only [List.cons_append, setCounterFirst, if_neg hb, List.append_eq]
    rw [ih (fun x hx => hpre x (by simp [hx]))]

/-- setCounterFirst does not change the ids of the list. -/
theorem setCounterFirst_map_id (l : List Passkey) (cid : String) (n : Nat) :
    (setCounterFirst l cid n).map Passkey.id = l.map Passkey.id := by
  induction l with
  | nil => rfl
  | cons b rest ih =>
    by_cases hb : b.id = cid
    · simp [setCounterFirst, hb]
    · simp [setCounterFirst, hb, ih]

/-- A sample client credential used for concrete instances. -/
def credA : ClientCredential :=
  { id := "A", challenge := "ch1", origin := "http://localhost:3000",
    rpId := "localhost", sigValid := true, newCounter := 6, regCounter := 5,
    publicKey := [1, 2], transports := ["usb"], deviceType := "singleDevice",
    backedUp := false }

/-- A sample stored passkey with counter 5 used for concrete instances. -/
def pkA : Passkey :=
  { id := "A", publicKey := [1, 2], counter := 5, transports := ["usb"],
    deviceType := "singleDevice", backedUp := false }

/-- A db with user "bob" holding no passkeys. -/
def dbBob : DB :=
  { users := [("bob", { username := "bob", passkeys := [] })],
    regOptions := [], authOptions := [] }

/-- Claim C9: getOrCreateUser always succeeds and is idempotent: a missing
username is created with an empty credential sequence, an existing username
is returned with the store unchanged, and a second call returns the same
user and leaves the store exactly as after the first call. -/
theorem getOrCreateUser_idempotent (db : DB) (u : String) :
    (mapGet db.users u = none →
      getOrCreateUser db u =
        ({ username := u, passkeys := [] },
          { db with
              users := mapSet db.users u { username := u, passkeys := [] } })) ∧
    (∀ user, mapGet db.users u = some user → getOrCreateUser db u = (user, db)) ∧
    (getOrCreateUser (getOrCreateUser db u).2 u).2 = (getOrCreateUser db u).2 ∧
    (getOrCreateUser (getOrCreateUser db u).2 u).1 = (getOrCreateUser db u).1 := by
  rcases h : mapGet db.users u with _ | user
  · have h2 : mapGet (mapSet db.users u { username := u, passkeys := [] }) u =
        some { username := u, passkeys := [] } := by
      rw [mapGet_set]; simp
    refine ⟨fun _ => by simp [getOrCreateUser, h], ?_, ?_, ?_⟩
    · intro user hu; cases hu
    · simp [getOrCreateUser, h, h2]
    · simp [getOrCreateUser, h, h2]
  · refine ⟨?_, ?_, ?_, ?_⟩
    · intro hn; cases hn
    · intro user' hu; cases hu; simp [getOrCreateUser, h]
    · simp [getOrCreateUser, h]
    · simp [getOrCreateUser, h]

/-- Witness for getOrCreateUser_idempotent at the empty db and "alice". -/
theorem getOrCreateUser_idempotent_witness :
    getOrCreateUser emptyDB "alice" =
      ({ username := "alice", passkeys := [] },
        { emptyDB with
            users := mapSet emptyDB.users "alice"
              { username := "alice", passkeys := [] } }) ∧
    (getOrCreateUser (getOrCreateUser emptyDB "alice").2 "alice").2 =
      (getOrCreateUser emptyDB "alice").2 := by
  have h := getOrCreateUser_idempotent emptyDB "alice"
  exact ⟨h.1 rfl, h.2.2.1⟩

/-- Claim C7: login/options for a nonempty username fails with 400
"Usuario no existe" when the user is absent and 400 "Usuario sin passkeys"
when the user has no credentials, and in both failure cases the db — in
particular the authentication challenge cache — is unchanged, so no
challenge is cached. -/
theorem loginOptions_failure_no_cache (db : DB) (u : String) (ch : String)
    (hu : u ≠ "") :
    (mapGet db.users u = none →
      loginOptions db (some u) ch = (.err "Usuario no existe", db)) ∧
    (∀ user, mapGet db.users u = some user → user.passkeys = [] →
      loginOptions db (some u) ch = (.err "Usuario sin passkeys", db)) := by
  constructor
  · intro hget; simp [loginOptions, hu, hget]
  · intro user hget hpk; simp [loginOptions, hu, hget, hpk]

/-- Witness for loginOptions_failure_no_cache: unknown user on the empty
db, and user "bob" with no passkeys. -/
theorem loginOptions_failure_no_cache_witness :
    loginOptions emptyDB (some "bob") "ch" = (.err "Usuario no existe", emptyDB) ∧
    loginOptions dbBob (some "bob") "ch" = (.err "Usuario sin passkeys", dbBob) := by
  constructor
  · exact (loginOptions_failure_no_cache emptyDB "bob" "ch" (by decide)).1 rfl
  · exact (loginOptions_failure_no_cache dbBob "bob" "ch" (by decide)).2
      { username := "bob", passkeys := [] } (by decide) rfl

/-- Claim C10: the registration and authentication challenge caches are
independent: registration handlers leave the authentication cache
untouched and vice versa, and no handler with username input u touches the
pending challenge of a different username u' in its own cache. -/
theorem challenge_caches_independent (db : DB) (u? : Option String)
    (u' : String) (ch : String) (rv : RegVerifier) (av : AuthVerifier)
    (c? : Option ClientCredential) (hne : u? ≠ some u') :
    (registerOptions db u? ch).2.authOptions = db.authOptions ∧
    mapGet (registerOptions db u? ch).2.regOptions u' = mapGet db.regOptions u' ∧
    (registerVerify rv db u? c?).2.authOptions = db.authOptions ∧
    mapGet (registerVerify rv db u? c?).2.regOptions u' = mapGet db.regOptions u' ∧
    (loginOptions db u? ch).2.regOptions = db.regOptions ∧
    mapGet (loginOptions db u? ch).2.authOptions u' = mapGet db.authOptions u' ∧
    (loginVerify av db u? c?).2.regOptions = db.regOptions ∧
    mapGet (loginVerify av db u? c?).2.authOptions u' = mapGet db.authOptions u' := by
  refine ⟨?_, ?_, ?_, ?_, ?_, ?_, ?_, ?_⟩
  · rcases registerOptions_shape db u? ch with heq | ⟨u, opts, hu?, hu, hcase⟩
    · rw [heq]
    rcases hcase with ⟨user, hget, heq⟩ | ⟨hget, heq⟩ <;> rw [heq]
  · rcases registerOptions_shape db u? ch with heq | ⟨u, opts, hu?, hu, hcase⟩
    · rw [heq]
    have hne' : ¬ u = u' := fun he => hne (by rw [hu?, he])
    rcases hcase with ⟨user, hget, heq⟩ | ⟨hget, heq⟩ <;>
      rw [heq] <;> rw [mapGet_set] <;> simp [hne']
  · rcases registerVerify_shape rv db u? c? with heq | ⟨u, hu?, hcase⟩
    · rw [heq]
    rcases hcase with heq | ⟨user', heq⟩ <;> rw [heq]
  · rcases registerVerify_shape rv db u? c? with heq | ⟨u, hu?, hcase⟩
    · rw [heq]
    have hne' : ¬ u = u' := fun he => hne (by rw [hu?, he])
    rcases hcase with heq | ⟨user', heq⟩ <;>
      rw [heq] <;> rw [mapGet_delete] <;> simp [hne']
  · rcases loginOptions_shape db u? ch with heq | ⟨u, opts, user, hu?, hu, hget, hpk, heq⟩
    · rw [heq]
    · rw [heq]
  · rcases loginOptions_shape db u? ch with heq | ⟨u, opts, user, hu?, hu, hget, hpk, heq⟩
    · rw [heq]
    have hne' : ¬ u = u' := fun he => hne (by rw [hu?, he])
    rw [heq]; rw [mapGet_set]; simp [hne']
  · rcases loginVerify_shape av db u? c? with heq | ⟨u, hu?, hcase⟩
    · rw [heq]
    rcases hcase with heq | ⟨user', heq⟩ <;> rw [heq]
  · rcases loginVerify_shape av db u? c? with heq | ⟨u, hu?, hcase⟩
    · rw [heq]
    have hne' : ¬ u = u' := fun he => hne (by rw [hu?, he])
    rcases hcase with heq | ⟨user', heq⟩ <;>
      rw [heq] <;> rw [mapGet_delete] <;> simp [hne']

/-- Witness for challenge_caches_independent: a register/verify call for
"alice" on the "bob" db leaves the authentication cache and bob's pending
registration challenge (none) untouched. -/
theorem challenge_caches_independent_witness :
    (registerVerify specRegVerifier dbBob (some "alice") (some credA)).2.authOptions =
      dbBob.authOptions ∧
    mapGet (registerVerify specRegVerifier dbBob (some "alice") (some credA)).2.regOptions
      "bob" = mapGet dbBob.regOptions "bob" := by
  have h := challenge_caches_independent dbBob (some "alice") "bob" "ch"
    specRegVerifier specAuthVerifier (some credA) (by decide)
  exact ⟨h.2.2.1, h.2.2.2.1⟩

/-- A db where "alice" exists with no passkeys and a pending registration
challenge "ch1". -/
def dbAliceReg : DB :=
  { users := [("alice", { username := "alice", passkeys := [] })],
    regOptions := [("alice", { challenge := "ch1", excludeCredentials := [] })],
    authOptions := [] }

/-- The registration info specRegVerifier extracts from credA. -/
def infoA : RegistrationInfo :=
  { credential := { id := "A", publicKey := [1, 2], counter := 5, transports := ["usb"] },
    credentialDeviceType := "singleDevice", credentialBackedUp := false }

/-- Claim C3: once register/verify reaches verification (fields, user and
pending options present), a verified-success result appends exactly one
credential, built from the verification result, to the named user's
sequence and touches no other user; a verified-false result or a thrown
error leaves the users map (the CredentialStore) unchanged and reports
verified false resp. a 400 error carrying the thrown message. -/
theorem registerVerify_append_or_unchanged (ver : RegVerifier) (db : DB)
    (u : String) (c : ClientCredential) (user : User) (opts : RegOptions)
    (hu : u ≠ "") (hget : mapGet db.users u = some user)
    (hopt : mapGet db.regOptions u = some opts) :
    (∀ vres info, ver c opts.challenge ORIGINS rpID = .ok vres →
      vres.verified = true → vres.registrationInfo = some info →
      (registerVerify ver db (some u) (some c)).1 = .ok true ∧
      mapGet (registerVerify ver db (some u) (some c)).2.users u =
        some { user with passkeys := user.passkeys ++ [mkPasskey info] } ∧
      ∀ u', u' ≠ u →
        mapGet (registerVerify ver db (some u) (some c)).2.users u' =
          mapGet db.users u') ∧
    (∀ vres, ver c opts.challenge ORIGINS rpID = .ok vres → vres.verified = false →
      (registerVerify ver db (some u) (some c)).1 = .ok false ∧
      (registerVerify ver db (some u) (some c)).2.users = db.users) ∧
    (∀ msg, ver c opts.challenge ORIGINS rpID = .error msg →
      (registerVerify ver db (some u) (some c)).1 = .err msg ∧
      (registerVerify ver db (some u) (some c)).2.users = db.users) := by
  have hrun := registerVerify_run ver db u c user opts hu hget hopt
  refine ⟨?_, ?_, ?_⟩
  · intro vres info hv hvf hinfo
    have hcall : registerVerify ver db (some u) (some c) =
        (.ok true,
          { db with
              users := mapSet db.users u
                { user with passkeys := user.passkeys ++ [mkPasskey info] },
              regOptions := mapDelete db.regOptions u }) := by
      rw [hrun]; simp [hv, hvf, hinfo]
    rw [hcall]
    refine ⟨rfl, ?_, ?_⟩
    · rw [mapGet_set, if_pos rfl]
    · intro u' hne
      rw [mapGet_set, if_neg (fun he => hne he.symm)]
  · intro vres hv hvf
    have hcall : registerVerify ver db (some u) (some c) =
        (.ok false, { db with regOptions := mapDelete db.regOptions u }) := by
      rw [hrun]; simp [hv, hvf]
    rw [hcall]
    exact ⟨rfl, rfl⟩
  · intro msg hv
    have hcall : registerVerify ver db (some u) (some c) =
        (.err msg, { db with regOptions := mapDelete db.regOptions u }) := by
      rw [hrun]; simp [hv]
    rw [hcall]
    exact ⟨rfl, rfl⟩

/-- Witness for registerVerify_append_or_unchanged: a verified registration
for "alice" on dbAliceReg appends exactly the passkey built from credA. -/
theorem registerVerify_append_or_unchanged_witness :
    (registerVerify specRegVerifier dbAliceReg (some "alice") (some credA)).1 =
      .ok true ∧
    mapGet (registerVerify specRegVerifier dbAliceReg (some "alice") (some credA)).2.users
      "alice" = some { username := "alice", passkeys := [mkPasskey infoA] } := by
  have h := (registerVerify_append_or_unchanged specRegVerifier dbAliceReg "alice" credA
    { username := "alice", passkeys := [] }
    { challenge := "ch1", excludeCredentials := [] }
    (by decide) (by decide) (by decide)).1
    { verified := true, registrationInfo := some infoA } infoA rfl rfl rfl
  exact ⟨h.1, by simpa using h.2.1⟩

/-- A db where "alice" holds passkey pkA (counter 5) and a pending
authentication challenge "ch1". -/
def dbAliceAuth : DB :=
  { users := [("alice", { username := "alice", passkeys := [pkA] })],
    regOptions := [],
    authOptions := [("alice", { challenge := "ch1", allowCredentials := [("A", ["usb"])] })] }

/-- Claim C6: a successful authentication finish rewrites exactly the
matched credential's counter: the first passkey whose id matches becomes
{ passkey with counter := n } (so its id, publicKey, transports,
deviceType and backedUp are unchanged), the passkeys before and after it
are untouched, every other user's record is untouched, and the
registration challenge cache is untouched. -/
theorem loginVerify_counter_frame (ver : AuthVerifier) (db : DB) (u : String)
    (c : ClientCredential) (user : User) (opts : AuthOptions) (passkey : Passkey)
    (vres : AuthVerification) (n : Nat)
    (hu : u ≠ "") (hget : mapGet db.users u = some user)
    (hopt : mapGet db.authOptions u = some opts)
    (hfind : user.passkeys.find? (fun pk => pk.id == c.id) = some passkey)
    (hv : ver c opts.challenge ORIGINS rpID
      { id := passkey.id, publicKey := passkey.publicKey,
        counter := passkey.counter, transports := passkey.transports } = .ok vres)
    (hvf : vres.verified = true) (hinfo : vres.authenticationInfo = some n) :
    (loginVerify ver db (some u) (some c)).1 = .ok true ∧
    (∃ pre post, user.passkeys = pre ++ passkey :: post ∧
      (∀ x ∈ pre, x.id ≠ c.id) ∧
      mapGet (loginVerify ver db (some u) (some c)).2.users u =
        some { user with passkeys := pre ++ { passkey with counter := n } :: post }) ∧
    (∀ u', u' ≠ u →
      mapGet (loginVerify ver db (some u) (some c)).2.users u' = mapGet db.users u') ∧
    (loginVerify ver db (some u) (some c)).2.regOptions = db.regOptions := by
  have hrun := loginVerify_run ver db u c user opts hu hget hopt
  have hcall : loginVerify ver db (some u) (some c) =
      (.ok true,
        { db with
            users := mapSet db.users u
              { user with passkeys := setCounterFirst user.passkeys c.id n },
            authOptions := mapDelete db.authOptions u }) := by
    rw [hrun]; simp [hfind, hv, hvf, hinfo]
  obtain ⟨pre, post, hl, hpre⟩ := find?_decomp hfind
  have hpk : passkey.id = c.id := by simpa using List.find?_some hfind
  have hpre' : ∀ x ∈ pre, x.id ≠ c.id := fun x hx => by simpa using hpre x hx
  rw [hcall]
  refine ⟨rfl, ⟨pre, post, hl, hpre', ?_⟩, ?_, rfl⟩
  · rw [mapGet_set, if_pos rfl, hl,
      setCounterFirst_decomp pre post passkey c.id n hpk hpre']
  · intro u' hne
    rw [mapGet_set, if_neg (fun he => hne he.symm)]

/-- Witness for loginVerify_counter_frame: a verified authentication for
"alice" on dbAliceAuth with new counter 6. -/
theorem loginVerify_counter_frame_witness :
    (loginVerify specAuthVerifier dbAliceAuth (some "alice") (some credA)).1 =
      .ok true ∧
    (loginVerify specAuthVerifier dbAliceAuth (some "alice") (some credA)).2.regOptions =
      dbAliceAuth.regOptions := by
  have h := loginVerify_counter_frame specAuthVerifier dbAliceAuth "alice" credA
    { username := "alice", passkeys := [pkA] }
    { challenge := "ch1", allowCredentials := [("A", ["usb"])] } pkA
    { verified := true, authenticationInfo := some 6 } 6
    (by decide) (by decide) (by decide) (by decide) rfl rfl rfl
  exact ⟨h.1, h.2.2.2⟩

/-- credA with asserted counter 5, equal to the stored counter of pkA. -/
def credA5 : ClientCredential := { credA with newCounter := 5 }

/-- Claim C2: with the spec's delegated verification capability, an
authentication finish whose asserted newCounter is at most the stored
counter is rejected as a VerificationFailure 400 error and leaves the
users map (hence the stored counter) unchanged, while an asserted
newCounter strictly greater than the stored counter yields verified true
and the matched credential's stored counter becomes newCounter; so the
stored signCounter never decreases across successful authentications. -/
theorem signCounter_monotonic (db : DB) (u : String) (c : ClientCredential)
    (user : User) (opts : AuthOptions) (passkey : Passkey)
    (hu : u ≠ "") (hget : mapGet db.users u = some user)
    (hopt : mapGet db.authOptions u = some opts)
    (hfind : user.passkeys.find? (fun pk => pk.id == c.id) = some passkey)
    (hch : c.challenge = opts.challenge) (horig : c.origin ∈ ORIGINS)
    (hrp : c.rpId = rpID) (hsig : c.sigValid = true) :
    (c.newCounter ≤ passkey.counter →
      (loginVerify specAuthVerifier db (some u) (some c)).1 =
        .err "VerificationFailure: counter" ∧
      (loginVerify specAuthVerifier db (some u) (some c)).2.users = db.users) ∧
    (passkey.counter < c.newCounter →
      (loginVerify specAuthVerifier db (some u) (some c)).1 = .ok true ∧
      ∃ pre post, user.passkeys = pre ++ passkey :: post ∧
        mapGet (loginVerify specAuthVerifier db (some u) (some c)).2.users u =
          some { user with
                   passkeys := pre ++ { passkey with counter := c.newCounter } :: post }) := by
  have hrun := loginVerify_run specAuthVerifier db u c user opts hu hget hopt
  constructor
  · intro hle
    have hnlt : ¬ passkey.counter < c.newCounter := Nat.not_lt.mpr hle
    have hv : specAuthVerifier c opts.challenge ORIGINS rpID
        { id := passkey.id, publicKey := passkey.publicKey,
          counter := passkey.counter, transports := passkey.transports } =
        .error "VerificationFailure: counter" := by
      simp [specAuthVerifier, hch, horig, hrp, hsig, hnlt]
    have hcall : loginVerify specAuthVerifier db (some u) (some c) =
        (.err "VerificationFailure: counter",
          { db with authOptions := mapDelete db.authOptions u }) := by
      rw [hrun]; simp [hfind, hv]
    rw [hcall]
    exact ⟨rfl, rfl⟩
  · intro hlt
    have hv : specAuthVerifier c opts.challenge ORIGINS rpID
        { id := passkey.id, publicKey := passkey.publicKey,
          counter := passkey.counter, transports := passkey.transports } =
        .ok { verified := true, authenticationInfo := some c.newCounter } := by
      simp [specAuthVerifier, hch, horig, hrp, hsig, hlt]
    have hcall : loginVerify specAuthVerifier db (some u) (some c) =
        (.ok true,
          { db with
              users := mapSet db.users u
                { user with
                    passkeys := setCounterFirst user.passkeys c.id c.newCounter },
              authOptions := mapDelete db.authOptions u }) := by
      rw [hrun]; simp [hfind, hv]
    obtain ⟨pre, post, hl, hpre⟩ := find?_decomp hfind
    have hpk : passkey.id = c.id := by simpa using List.find?_some hfind
    have hpre' : ∀ x ∈ pre, x.id ≠ c.id := fun x hx => by simpa using hpre x hx
    rw [hcall]
    refine ⟨rfl, pre, post, hl, ?_⟩
    rw [mapGet_set, if_pos rfl, hl,
      setCounterFirst_decomp pre post passkey c.id c.newCounter hpk hpre']

/-- Witness for signCounter_monotonic: on dbAliceAuth (stored counter 5),
asserted counter 5 is rejected and leaves the users map unchanged;
asserted counter 6 verifies. -/
theorem signCounter_monotonic_witness :
    (loginVerify specAuthVerifier dbAliceAuth (some "alice") (some credA5)).1 =
      .err "VerificationFailure: counter" ∧
    (loginVerify specAuthVerifier dbAliceAuth (some "alice") (some credA5)).2.users =
      dbAliceAuth.users ∧
    (loginVerify specAuthVerifier dbAliceAuth (some "alice") (some credA)).1 =
      .ok true := by
  have h5 := signCounter_monotonic dbAliceAuth "alice" credA5
    { username := "alice", passkeys := [pkA] }
    { challenge := "ch1", allowCredentials := [("A", ["usb"])] } pkA
    (by decide) (by decide) (by decide) (by decide) rfl (by decide) rfl rfl
  have h6 := signCounter_monotonic dbAliceAuth "alice" credA
    { username := "alice", passkeys := [pkA] }
    { challenge := "ch1", allowCredentials := [("A", ["usb"])] } pkA
    (by decide) (by decide) (by decide) (by decide) rfl (by decide) rfl rfl
  exact ⟨(h5.1 (by decide)).1, (h5.1 (by decide)).2, (h6.2 (by decide)).1⟩

/-- After register/options for a nonempty username, the user exists and the
stored registration options carry the fresh challenge. -/
theorem registerOptions_then_get (db : DB) (u : String) (ch : String) (hu : u ≠ "") :
    ∃ user ex, mapGet (registerOptions db (some u) ch).2.users u = some user ∧
      mapGet (registerOptions db (some u) ch).2.regOptions u =
        some { challenge := ch, excludeCredentials := ex } := by
  rcases hget : mapGet db.users u with _ | user
  · refine ⟨{ username := u, passkeys := [] }, [], ?_, ?_⟩
    · simp only [registerOptions_eq_new db u ch hu hget]
      rw [mapGet_set, if_pos rfl]
    · simp only [registerOptions_eq_new db u ch hu hget]
      rw [mapGet_set, if_pos rfl]
  · refine ⟨user, user.passkeys.map (fun pk => (pk.id, pk.transports)), ?_, ?_⟩
    · simp only [registerOptions_eq_existing db u ch user hu hget]
      exact hget
    · simp only [registerOptions_eq_existing db u ch user hu hget]
      rw [mapGet_set, if_pos rfl]

/-- After login/options for an existing user with credentials, the user
record is unchanged and the stored authentication options carry the fresh
challenge. -/
theorem loginOptions_then_get (db : DB) (u : String) (ch : String) (user : User)
    (hu : u ≠ "") (hget : mapGet db.users u = some user)
    (hpk : user.passkeys ≠ []) :
    mapGet (loginOptions db (some u) ch).2.users u = some user ∧
    mapGet (loginOptions db (some u) ch).2.authOptions u =
      some { challenge := ch,
             allowCredentials := user.passkeys.map (fun pk => (pk.id, pk.transports)) } := by
  constructor
  · simp only [loginOptions_eq db u ch user hu hget hpk]
    exact hget
  · simp only [loginOptions_eq db u ch user hu hget hpk]
    rw [mapGet_set, if_pos rfl]

/-- Claim C5: at most one pending challenge per username and kind (the Map
entry): beginning a ceremony twice without finishing stores the second
challenge — distinct from the first by freshness of the generator, taken
as the hypothesis ch1 ≠ ch2 — so the first challenge is permanently
unusable, and a finish through the spec verifier rejects a response signed
over the first challenge and accepts only one signed over the most recent
challenge; for registration and, for a user with credentials, for
authentication. -/
theorem single_active_challenge (db : DB) (u : String) (ch1 ch2 : String)
    (hu : u ≠ "") (hne : ch1 ≠ ch2) :
    ((mapGet ((registerOptions (registerOptions db (some u) ch1).2 (some u) ch2).2).regOptions u).map
        RegOptions.challenge = some ch2) ∧
    ((mapGet ((registerOptions (registerOptions db (some u) ch1).2 (some u) ch2).2).regOptions u).map
        RegOptions.challenge ≠ some ch1) ∧
    (∀ c, c.challenge = ch1 →
      (registerVerify specRegVerifier
        ((registerOptions (registerOptions db (some u) ch1).2 (some u) ch2).2)
        (some u) (some c)).1 = .err "VerificationFailure") ∧
    (∀ c, c.challenge = ch2 → c.origin ∈ ORIGINS → c.rpId = rpID →
      c.sigValid = true →
      (registerVerify specRegVerifier
        ((registerOptions (registerOptions db (some u) ch1).2 (some u) ch2).2)
        (some u) (some c)).1 = .ok true) ∧
    (∀ user, mapGet db.users u = some user → user.passkeys ≠ [] →
      ((mapGet ((loginOptions (loginOptions db (some u) ch1).2 (some u) ch2).2).authOptions u).map
          AuthOptions.challenge = some ch2) ∧
      ((mapGet ((loginOptions (loginOptions db (some u) ch1).2 (some u) ch2).2).authOptions u).map
          AuthOptions.challenge ≠ some ch1) ∧
      (∀ c passkey, user.passkeys.find? (fun pk => pk.id == c.id) = some passkey →
        c.challenge = ch1 →
        (loginVerify specAuthVerifier
          ((loginOptions (loginOptions db (some u) ch1).2 (some u) ch2).2)
          (some u) (some c)).1 = .err "VerificationFailure") ∧
      (∀ c passkey, user.passkeys.find? (fun pk => pk.id == c.id) = some passkey →
        c.challenge = ch2 → c.origin ∈ ORIGINS → c.rpId = rpID →
        c.sigValid = true → passkey.counter < c.newCounter →
        (loginVerify specAuthVerifier
          ((loginOptions (loginOptions db (some u) ch1).2 (some u) ch2).2)
          (some u) (some c)).1 = .ok true)) := by
  obtain ⟨user2, ex2, hget2, hopt2⟩ :=
    registerOptions_then_get (registerOptions db (some u) ch1).2 u ch2 hu
  have hch2ne : ¬ ch2 = ch1 := fun h => hne h.symm
  refine ⟨by rw [hopt2]; rfl, by rw [hopt2]; simp [hch2ne], ?_, ?_, ?_⟩
  · intro c hc1
    have hv : specRegVerifier c ch2 ORIGINS rpID = .error "VerificationFailure" := by
      simp [specRegVerifier, hc1, hne]
    rw [registerVerify_run specRegVerifier _ u c user2
      { challenge := ch2, excludeCredentials := ex2 } hu hget2 hopt2]
    simp [hv]
  · intro c hc2 horig hrp hsig
    have hv : specRegVerifier c ch2 ORIGINS rpID =
        .ok { verified := true,
              registrationInfo := some
                { credential :=
                    { id := c.id, publicKey := c.publicKey,
                      counter := c.regCounter, transports := c.transports },
                  credentialDeviceType := c.deviceType,
                  credentialBackedUp := c.backedUp } } := by
      simp [specRegVerifier, hc2, horig, hrp, hsig]
    rw [registerVerify_run specRegVerifier _ u c user2
      { challenge := ch2, excludeCredentials := ex2 } hu hget2 hopt2]
    simp [hv]
  · intro user hget hpk
    obtain ⟨hgetA, _⟩ := loginOptions_then_get db u ch1 user hu hget hpk
    obtain ⟨hgetB, hoptB⟩ :=
      loginOptions_then_get (loginOptions db (some u) ch1).2 u ch2 user hu hgetA hpk
    refine ⟨by rw [hoptB]; rfl, by rw [hoptB]; simp [hch2ne], ?_, ?_⟩
    · intro c passkey hfind hc1
      have hv : specAuthVerifier c ch2 ORIGINS rpID
          { id := passkey.id, publicKey := passkey.publicKey,
            counter := passkey.counter, transports := passkey.transports } =
          .error "VerificationFailure" := by
        simp [specAuthVerifier, hc1, hne]
      rw [loginVerify_run specAuthVerifier _ u c user
        { challenge := ch2,
          allowCredentials := user.passkeys.map (fun pk => (pk.id, pk.transports)) }
        hu hgetB hoptB]
      simp [hfind, hv]
    · intro c passkey hfind hc2 horig hrp hsig hlt
      have hv : specAuthVerifier c ch2 ORIGINS rpID
          { id := passkey.id, publicKey := passkey.publicKey,
            counter := passkey.counter, transports := passkey.transports } =
          .ok { verified := true, authenticationInfo := some c.newCounter } := by
        simp [specAuthVerifier, hc2, horig, hrp, hsig, hlt]
      rw [loginVerify_run specAuthVerifier _ u c user
        { challenge := ch2,
          allowCredentials := user.passkeys.map (fun pk => (pk.id, pk.transports)) }
        hu hgetB hoptB]
      simp [hfind, hv]

/-- Witness for single_active_challenge: two register/options calls for
"alice" on the empty db; the stored challenge is the second one, a finish
echoing the first challenge fails, one echoing the second succeeds. -/
theorem single_active_challenge_witness :
    ((mapGet ((registerOptions (registerOptions emptyDB (some "alice") "c1").2
        (some "alice") "c2").2).regOptions "alice").map
        RegOptions.challenge = some "c2") ∧
    (registerVerify specRegVerifier
      ((registerOptions (registerOptions emptyDB (some "alice") "c1").2
        (some "alice") "c2").2)
      (some "alice") (some { credA with challenge := "c1" })).1 =
        .err "VerificationFailure" ∧
    (registerVerify specRegVerifier
      ((registerOptions (registerOptions emptyDB (some "alice") "c1").2
        (some "alice") "c2").2)
      (some "alice") (some { credA with challenge := "c2" })).1 = .ok true := by
  have h := single_active_challenge emptyDB "alice" "c1" "c2" (by decide) (by decide)
  exact ⟨h.1, h.2.2.1 { credA with challenge := "c1" } rfl,
    h.2.2.2.1 { credA with challenge := "c2" } rfl (by decide) rfl rfl⟩

/-- Claim C1 counterexample: on a reachable db holding a pending
registration challenge for "alice", a finish call that omits the
credential field returns 400 "Faltan datos" and the pending challenge is
still present afterwards — so the pending challenge is not absent after
every finish call, and cleanup does not run on the missing-field branch. -/
theorem finish_without_credential_keeps_challenge :
    (registerVerify specRegVerifier
        (registerOptions emptyDB (some "alice") "ch1").2 (some "alice") none).1 =
      .err "Faltan datos" ∧
    mapGet (registerVerify specRegVerifier
        (registerOptions emptyDB (some "alice") "ch1").2
        (some "alice") none).2.regOptions "alice" ≠ none := by
  decide

/-- Claim C1 amended: on every reachable db, a finish call that carries
both username and credential leaves no pending challenge of its kind for
that username, whatever the verifier returned or threw; and after a
completed finish (one that ran with the user and a pending challenge
present) an immediately following second finish of the same kind fails
with the NoPendingChallenge error. -/
theorem finish_clears_challenge (db : DB) (hdb : Reachable db) (u : String)
    (c : ClientCredential) (rv : RegVerifier) (av : AuthVerifier) :
    mapGet (registerVerify rv db (some u) (some c)).2.regOptions u = none ∧
    mapGet (loginVerify av db (some u) (some c)).2.authOptions u = none ∧
    (mapGet db.users u ≠ none → mapGet db.regOptions u ≠ none →
      ∀ c2 rv2,
        (registerVerify rv2 (registerVerify rv db (some u) (some c)).2
          (some u) (some c2)).1 = .err "No hay options de registro activas") ∧
    (mapGet db.users u ≠ none → mapGet db.authOptions u ≠ none →
      ∀ c2 av2,
        (loginVerify av2 (loginVerify av db (some u) (some c)).2
          (some u) (some c2)).1 = .err "No hay options de login activas") := by
  have hinv := challengeInv_reachable hdb
  refine ⟨registerVerify_clears rv db u c hinv,
    loginVerify_clears av db u c hinv, ?_, ?_⟩
  · intro huser hopt c2 rv2
    have hu : u ≠ "" := (hinv.1 u hopt).1
    have huser1 : mapGet (registerVerify rv db (some u) (some c)).2.users u ≠ none :=
      registerVerify_users_preserved rv db (some u) (some c) u huser
    rcases h1 : mapGet (registerVerify rv db (some u) (some c)).2.users u with _ | user1
    · exact absurd h1 huser1
    have hnone := registerVerify_clears rv db u c hinv
    rw [registerVerify_no_pending rv2 _ u c2 user1 hu h1 hnone]
  · intro huser hopt c2 av2
    have hu : u ≠ "" := (hinv.2 u hopt).1
    have huser1 : mapGet (loginVerify av db (some u) (some c)).2.users u ≠ none :=
      loginVerify_users_preserved av db (some u) (some c) u huser
    rcases h1 : mapGet (loginVerify av db (some u) (some c)).2.users u with _ | user1
    · exact absurd h1 huser1
    have hnone := loginVerify_clears av db u c hinv
    rw [loginVerify_no_pending av2 _ u c2 user1 hu h1 hnone]

/-- Witness for finish_clears_challenge on the reachable db produced by one
register/options call for "alice". -/
theorem finish_clears_challenge_witness :
    mapGet (registerVerify specRegVerifier
      (registerOptions emptyDB (some "alice") "ch1").2
      (some "alice") (some credA)).2.regOptions "alice" = none ∧
    (registerVerify specRegVerifier
      (registerVerify specRegVerifier (registerOptions emptyDB (some "alice") "ch1").2
        (some "alice") (some credA)).2
      (some "alice") (some credA)).1 = .err "No hay options de registro activas" := by
  have h := finish_clears_challenge (registerOptions emptyDB (some "alice") "ch1").2
    (Reachable.step Reachable.init (Step.regOpts emptyDB (some "alice") "ch1"))
    "alice" credA specRegVerifier specAuthVerifier
  exact ⟨h.1, h.2.2.1 (by decide) (by decide) credA specRegVerifier⟩

/-- Claim C4 counterexample: a register finish for an unknown username with
no pending challenge fails with 400 "Usuario no existe" (UnknownUser), not
with the NoPendingChallenge error. -/
theorem finish_unknown_user_not_no_pending :
    mapGet emptyDB.regOptions "zoe" = none ∧
    (registerVerify specRegVerifier emptyDB (some "zoe") (some credA)).1 =
      .err "Usuario no existe" ∧
    (registerVerify specRegVerifier emptyDB (some "zoe") (some credA)).1 ≠
      .err "No hay options de registro activas" := by
  decide

/-- Claim C4 amended: a finish call with no pending challenge of its kind
for the named username never changes the db at all — in particular it
never mutates the CredentialStore — and it fails with the
NoPendingChallenge error provided the request carries both fields and the
username names an existing user (with missing fields or an unknown user
the 400 error is the corresponding validation error instead). -/
theorem finish_no_pending_challenge (rv : RegVerifier) (av : AuthVerifier)
    (db : DB) (u : String) (c? : Option ClientCredential) :
    (mapGet db.regOptions u = none → (registerVerify rv db (some u) c?).2 = db) ∧
    (mapGet db.authOptions u = none → (loginVerify av db (some u) c?).2 = db) ∧
    (∀ c user, c? = some c → u ≠ "" → mapGet db.users u = some user →
      mapGet db.regOptions u = none →
      registerVerify rv db (some u) c? =
        (.err "No hay options de registro activas", db)) ∧
    (∀ c user, c? = some c → u ≠ "" → mapGet db.users u = some user →
      mapGet db.authOptions u = none →
      loginVerify av db (some u) c? =
        (.err "No hay options de login activas", db)) := by
  refine ⟨?_, ?_, ?_, ?_⟩
  · intro hopt
    cases c? with
    | none => simp [registerVerify]
    | some c =>
      by_cases hu : u = ""
      · simp [registerVerify, hu]
      rcases hget : mapGet db.users u with _ | user
      · simp [registerVerify, hu, hget]
      · rw [registerVerify_no_pending rv db u c user hu hget hopt]
  · intro hopt
    cases c? with
    | none => simp [loginVerify]
    | some c =>
      by_cases hu : u = ""
      · simp [loginVerify, hu]
      rcases hget : mapGet db.users u with _ | user
      · simp [loginVerify, hu, hget]
      · rw [loginVerify_no_pending av db u c user hu hget hopt]
  · intro c user hc hu hget hopt
    subst hc
    exact registerVerify_no_pending rv db u c user hu hget hopt
  · intro c user hc hu hget hopt
    subst hc
    exact loginVerify_no_pending av db u c user hu hget hopt

/-- Witness for finish_no_pending_challenge: user "bob" exists and has no
pending challenges, so both finish calls fail with NoPendingChallenge and
leave the db untouched. -/
theorem finish_no_pending_challenge_witness :
    registerVerify specRegVerifier dbBob (some "bob") (some credA) =
      (.err "No hay options de registro activas", dbBob) ∧
    loginVerify specAuthVerifier dbBob (some "bob") (some credA) =
      (.err "No hay options de login activas", dbBob) := by
  have h := finish_no_pending_challenge specRegVerifier specAuthVerifier dbBob
    "bob" (some credA)
  exact ⟨h.2.2.1 credA { username := "bob", passkeys := [] } rfl (by decide) (by decide) rfl,
    h.2.2.2 credA { username := "bob", passkeys := [] } rfl (by decide) (by decide) rfl⟩

/-- A registration verifier that reports success with credential id "A"
whatever the input: models an authenticator/client that ignores the
(advisory, client-side) exclusion list and re-registers the same
credential id. -/
def dupVerifier : RegVerifier := fun _ _ _ _ =>
  .ok { verified := true,
        registrationInfo := some
          { credential :=
              { id := "A", publicKey := [1, 2], counter := 0, transports := ["usb"] },
            credentialDeviceType := "singleDevice", credentialBackedUp := false } }

/-- Claim C8 counterexample: the register/verify handler appends without
any duplicate check, so beginning and successfully finishing registration
twice for "alice" with a verifier that returns credential id "A" both
times leaves "alice" with credential ids ["A", "A"] — not pairwise
distinct — in a state reached purely through handler calls. -/
theorem duplicate_credential_id_reachable :
    (mapGet (registerVerify dupVerifier
        (registerOptions (registerVerify dupVerifier
            (registerOptions emptyDB (some "alice") "c1").2
            (some "alice") (some credA)).2
          (some "alice") "c2").2
        (some "alice") (some credA)).2.users "alice").map
      (fun user => user.passkeys.map Passkey.id) = some ["A", "A"] ∧
    ¬ (["A", "A"] : List String).Nodup := by
  constructor
  · decide
  · decide

/-- Per-user credential id uniqueness over the whole store. -/
def UniqueIds (db : DB) : Prop :=
  ∀ u user, mapGet db.users u = some user → (user.passkeys.map Passkey.id).Nodup

theorem uniqueIds_users_eq {db db' : DB} (h : UniqueIds db)
    (he : db'.users = db.users) : UniqueIds db' := by
  intro u user hm
  rw [he] at hm
  exact h u user hm

theorem uniqueIds_users_set (db : DB) (u : String) (user' : User)
    (h : UniqueIds db) (hnew : (user'.passkeys.map Passkey.id).Nodup) :
    UniqueIds { db with users := mapSet db.users u user' } := by
  intro u' user'' hm
  rw [mapGet_set] at hm
  by_cases he : u = u'
  · rw [if_pos he] at hm
    cases hm
    exact hnew
  · rw [if_neg he] at hm
    exact h u' user'' hm

/-- Claim C8 amended: per-user credential id uniqueness is preserved by
every handler provided each successful registration verification yields a
credential id not already stored for that user — the server itself
performs no duplicate check, so id freshness is an assumption on the
verifier (honoured by honest authenticators via the exclusion list), not a
property the handlers enforce. -/
theorem uniqueIds_preserved (db : DB) (h : UniqueIds db) (u? : Option String)
    (c? : Option ClientCredential) (ch : String) (rv : RegVerifier)
    (av : AuthVerifier)
    (hfresh : ∀ u c user opts vres info, u? = some u → c? = some c →
      mapGet db.users u = some user → mapGet db.regOptions u = some opts →
      rv c opts.challenge ORIGINS rpID = .ok vres →
      vres.registrationInfo = some info →
      info.credential.id ∉ user.passkeys.map Passkey.id) :
    UniqueIds (registerOptions db u? ch).2 ∧
    UniqueIds (registerVerify rv db u? c?).2 ∧
    UniqueIds (loginOptions db u? ch).2 ∧
    UniqueIds (loginVerify av db u? c?).2 := by
  refine ⟨?_, ?_, ?_, ?_⟩
  · rcases registerOptions_shape db u? ch with heq | ⟨u, opts, hu?, hu, hcase⟩
    · exact uniqueIds_users_eq h (by rw [heq])
    rcases hcase with ⟨user, hget, heq⟩ | ⟨hget, heq⟩
    · exact uniqueIds_users_eq h (by rw [heq])
    · rw [heq]
      exact uniqueIds_users_set db u { username := u, passkeys := [] } h (by simp)
  · cases u? with
    | none => exact uniqueIds_users_eq h (by simp [registerVerify])
    | some u =>
      cases c? with
      | none => exact uniqueIds_users_eq h (by simp [registerVerify])
      | some c =>
        by_cases hu : u = ""
        · exact uniqueIds_users_eq h (by simp [registerVerify, hu])
        rcases hget : mapGet db.users u with _ | user
        · exact uniqueIds_users_eq h (by simp [registerVerify, hu, hget])
        rcases hopt : mapGet db.regOptions u with _ | opts
        · exact uniqueIds_users_eq h (by simp [registerVerify, hu, hget, hopt])
        have hrun := registerVerify_run rv db u c user opts hu hget hopt
        rcases hv : rv c opts.challenge ORIGINS rpID with msg | vres
        · exact uniqueIds_users_eq h (by rw [hrun]; simp [hv])
        rcases hvf : vres.verified with _ | _
        · exact uniqueIds_users_eq h (by rw [hrun]; simp [hv, hvf])
        rcases hinfo : vres.registrationInfo with _ | info
        · exact uniqueIds_users_eq h (by rw [hrun]; simp [hv, hvf, hinfo])
        · have hnotmem := hfresh u c user opts vres info rfl rfl hget hopt hv hinfo
          have hnodup :
              (({ user with passkeys := user.passkeys ++ [mkPasskey info] } : User).passkeys.map
                Passkey.id).Nodup := by
            simp only [List.map_append]
            refine List.Nodup.append (h u user hget) ?_ ?_
            · simp
            · intro x hx hx'
              simp [mkPasskey] at hx'
              rw [hx'] at hx
              exact hnotmem hx
          have heq : (registerVerify rv db (some u) (some c)).2 =
              { db with
                  users := mapSet db.users u
                    { user with passkeys := user.passkeys ++ [mkPasskey info] },
                  regOptions := mapDelete db.regOptions u } := by
            rw [hrun]; simp [hv, hvf, hinfo]
          rw [heq]
          exact uniqueIds_users_set db u _ h hnodup
  · rcases loginOptions_shape db u? ch with heq | ⟨u, opts, user, hu?, hu, hget, hpk, heq⟩
    · exact uniqueIds_users_eq h (by rw [heq])
    · exact uniqueIds_users_eq h (by rw [heq])
  · cases u? with
    | none => exact uniqueIds_users_eq h (by simp [loginVerify])
    | some u =>
      cases c? with
      | none => exact uniqueIds_users_eq h (by simp [loginVerify])
      | some c =>
        by_cases hu : u = ""
        · exact uniqueIds_users_eq h (by simp [loginVerify, hu])
        rcases hget : mapGet db.users u with _ | user
        · exact uniqueIds_users_eq h (by simp [loginVerify, hu, hget])
        rcases hopt : mapGet db.authOptions u with _ | opts
        · exact uniqueIds_users_eq h (by simp [loginVerify, hu, hget, hopt])
        have hrun := loginVerify_run av db u c user opts hu hget hopt
        rcases hfind : user.passkeys.find? (fun pk => pk.id == c.id) with _ | passkey
        · exact uniqueIds_users_eq h (by rw [hrun]; simp [hfind])
        rcases hv : av c opts.challenge ORIGINS rpID
            { id := passkey.id, publicKey := passkey.publicKey,
              counter := passkey.counter, transports := passkey.transports } with msg | vres
        · exact uniqueIds_users_eq h (by rw [hrun]; simp [hfind, hv])
        rcases hvf : vres.verified with _ | _
        · exact uniqueIds_users_eq h (by rw [hrun]; simp [hfind, hv, hvf])
        rcases hinfo : vres.authenticationInfo with _ | n
        · exact uniqueIds_users_eq h (by rw [hrun]; simp [hfind, hv, hvf, hinfo])
        · have hnodup :
              (({ user with passkeys := setCounterFirst user.passkeys c.id n } : User).passkeys.map
                Passkey.id).Nodup := by
            have hx : (setCounterFirst user.passkeys c.id n).map Passkey.id =
                user.passkeys.map Passkey.id := setCounterFirst_map_id user.passkeys c.id n
            exact hx ▸ h u user hget
          have heq : (loginVerify av db (some u) (some c)).2 =
              { db with
                  users := mapSet db.users u
                    { user with passkeys := setCounterFirst user.passkeys c.id n },
                  authOptions := mapDelete db.authOptions u } := by
            rw [hrun]; simp [hfind, hv, hvf, hinfo]
          rw [heq]
          exact uniqueIds_users_set db u _ h hnodup

/-- Witness for uniqueIds_preserved at the empty db (uniqueness and
freshness hold vacuously there). -/
theorem uniqueIds_preserved_witness :
    UniqueIds (registerOptions emptyDB (some "alice") "c1").2 := by
  have h := uniqueIds_preserved emptyDB
    (fun u user hm => by simp [emptyDB, mapGet] at hm)
    (some "alice") (some credA) "c1" specRegVerifier specAuthVerifier
    (fun u c user opts vres info _ _ hm => by simp [emptyDB, mapGet] at hm)
  exact h.1

end Passkeys
